import Mathlib

/-!
Verification development for `AppStoreAssets/render_screenshots.py`.

The script composites a raw screenshot into a 1320x2868 marketing image:
a vertical gradient background, centered headline/subtitle text, and a
device-frame outline containing the scaled, corner-rounded screenshot.

Modelling conventions:
* Python `int` arithmetic is `ℤ`.  Python floats are IEEE-754 binary64
  values; every float operation the script performs (`int / int` true
  division, `int * float`, `int + float`, `int`-to-`float` conversion) is
  correctly rounded, which is modeled exactly: values are the rationals
  they denote, and each operation applies `fl`, the rounding of an exact
  rational to 53 significant bits with round-to-nearest, ties-to-even
  (overflow and subnormals cannot arise at the magnitudes involved and are
  not modeled).  `int(x)` on a float is truncation toward zero (`truncQ`).
* `make_gradient` is embedded at the pixel level (a list of rows, each row a
  list of colors), exactly as the source loop produces it.  A Python
  `ZeroDivisionError` surfaces as `Except.error`.
* The effectful render pipeline is embedded with an explicit environment
  `Env` (filesystem probes, font loading, text measurement, image decoding)
  and an explicit filesystem state `FS`; image pixel buffers inside `render`
  are tracked at the (mode, width, height) level, which is what the claims
  about it need, since none of the PIL drawing calls used (`draw.text`,
  `paste`, `rounded_rectangle`) change an image's mode or size.
-/

namespace Drift

/-- RGB color with integer channels, as Python 3-tuples `(r, g, b)`. -/
structure Color where
  r : ℤ
  g : ℤ
  b : ℤ
deriving DecidableEq, Repr

/-- All three channels lie in `[0, 255]`. -/
def Color.inRange (c : Color) : Prop :=
  0 ≤ c.r ∧ c.r ≤ 255 ∧ 0 ≤ c.g ∧ c.g ≤ 255 ∧ 0 ≤ c.b ∧ c.b ≤ 255

instance (c : Color) : Decidable c.inRange := by
  unfold Color.inRange; infer_instance

/-- Python `int(q)` on a float/rational: truncation toward zero. -/
def truncQ (q : ℚ) : ℤ :=
  if 0 ≤ q then ⌊q⌋ else ⌈q⌉

/-! ### Binary64 rounding -/

/-- Round to the nearest integer, ties to even. -/
def roundEvenQ (q : ℚ) : ℤ :=
  if q - ⌊q⌋ < 1/2 then ⌊q⌋
  else if 1/2 < q - ⌊q⌋ then ⌊q⌋ + 1
  else if 2 ∣ ⌊q⌋ then ⌊q⌋ else ⌊q⌋ + 1

/-- Correct rounding of an exact rational to an IEEE-754 binary64 value:
scale the significand into `[2^52, 2^53)`, round to an integer with
round-to-nearest ties-to-even, scale back. -/
def fl (q : ℚ) : ℚ :=
  if q = 0 then 0
  else (roundEvenQ (q / 2 ^ (Int.log 2 |q| - 52)) : ℚ) *
    2 ^ (Int.log 2 |q| - 52)

/-- Source `_lerp(a, b, t) = int(a + (b - a) * t)` with `a`, `b` Python
ints and `t` a float: `b - a` is exact integer arithmetic, its conversion
to float rounds, the product and the sum round, and `int(...)` truncates
toward zero. -/
def lerp (a b : ℤ) (t : ℚ) : ℤ :=
  truncQ (fl (fl (a : ℚ) + fl (fl ((b : ℚ) - (a : ℚ)) * t)))

/-- The interpolation parameter of row `y`: source `t = y / (height - 1)`,
CPython `int / int` true division (correctly rounded to binary64). -/
def tOf (height y : ℕ) : ℚ :=
  fl ((y : ℚ) / ((height : ℚ) - 1))

/-- Color of gradient row `y`: the source computes each channel with `_lerp`
at parameter `t = y / (height - 1)`. -/
def rowColor (top bottom : Color) (height y : ℕ) : Color :=
  { r := lerp top.r bottom.r (tOf height y)
    g := lerp top.g bottom.g (tOf height y)
    b := lerp top.b bottom.b (tOf height y) }

/-- The message of the Python exception raised by `y / (height - 1)` when
`height = 1` (the loop body runs with `y = 0` and divides `0 / 0`). -/
def zeroDivMsg : String := "ZeroDivisionError: division by zero"

/-- Source `make_gradient(width, height, top, bottom)`, pixel level.  For
`height = 1` the first loop iteration divides by zero, so the call raises;
otherwise every row `y` is `width` copies of `rowColor top bottom height y`
(the `draw.line` call paints the whole row with one color). -/
def make_gradient (width height : ℕ) (top bottom : Color) :
    Except String (List (List Color)) :=
  if height = 1 then Except.error zeroDivMsg
  else Except.ok ((List.range height).map
    (fun y => List.replicate width (rowColor top bottom height y)))

theorem truncQ_intCast (n : ℤ) : truncQ (n : ℚ) = n := by
  unfold truncQ
  split_ifs <;> simp

theorem truncQ_mono {q r : ℚ} (h : q ≤ r) : truncQ q ≤ truncQ r := by
  unfold truncQ
  by_cases hq : 0 ≤ q
  · rw [if_pos hq, if_pos (le_trans hq h)]
    exact Int.floor_le_floor h
  · rw [if_neg hq]
    by_cases hr : 0 ≤ r
    · rw [if_pos hr]
      calc ⌈q⌉ ≤ 0 := Int.ceil_le.mpr (by exact_mod_cast le_of_not_le hq)
        _ ≤ ⌊r⌋ := Int.le_floor.mpr (by exact_mod_cast hr)
    · rw [if_neg hr]
      exact Int.ceil_le_ceil h

theorem truncQ_eq_floor {q : ℚ} (h : 0 ≤ q) : truncQ q = ⌊q⌋ :=
  if_pos h

theorem roundEvenQ_intCast (n : ℤ) : roundEvenQ (n : ℚ) = n := by
  rw [roundEvenQ, Int.floor_intCast, if_pos]
  norm_num

theorem roundEvenQ_bounds (q : ℚ) :
    ⌊q⌋ ≤ roundEvenQ q ∧ roundEvenQ q ≤ ⌊q⌋ + 1 := by
  rw [roundEvenQ]
  split_ifs <;> omega

theorem roundEvenQ_err (q : ℚ) : |(roundEvenQ q : ℚ) - q| ≤ 1/2 := by
  have h1 := Int.floor_le q
  have h2 := Int.lt_floor_add_one q
  rw [roundEvenQ]
  by_cases ha : q - ⌊q⌋ < 1/2
  · rw [if_pos ha, abs_le]
    constructor <;> linarith
  · rw [if_neg ha]
    rw [not_lt] at ha
    by_cases hb : 1/2 < q - ⌊q⌋
    · rw [if_pos hb, abs_le]
      constructor <;> push_cast <;> linarith
    · rw [not_lt] at hb
      rw [if_neg (by rw [not_lt]; linarith : ¬(1/2 < q - ⌊q⌋))]
      by_cases hc : 2 ∣ ⌊q⌋
      · rw [if_pos hc, abs_le]
        constructor <;> linarith
      · rw [if_neg hc, abs_le]
        constructor <;> push_cast <;> linarith

theorem roundEvenQ_mono {q r : ℚ} (h : q ≤ r) :
    roundEvenQ q ≤ roundEvenQ r := by
  have hf : ⌊q⌋ ≤ ⌊r⌋ := Int.floor_le_floor h
  by_cases heq : ⌊q⌋ = ⌊r⌋
  · rw [roundEvenQ, roundEvenQ, heq]
    by_cases ha : q - ⌊r⌋ < 1/2
    · rw [if_pos ha]
      split_ifs <;> omega
    · rw [if_neg ha]
      rw [not_lt] at ha
      have har : ¬(r - ⌊r⌋ < 1/2) := by rw [not_lt]; linarith
      rw [if_neg har]
      by_cases hb : 1/2 < q - ⌊r⌋
      · have hbr : 1/2 < r - ⌊r⌋ := by linarith
        rw [if_pos hb, if_pos hbr]
      · rw [if_neg hb]
        by_cases hbr : 1/2 < r - ⌊r⌋
        · rw [if_pos hbr]
          split_ifs <;> omega
        · rw [if_neg hbr]
  · have hlt : ⌊q⌋ < ⌊r⌋ := lt_of_le_of_ne hf heq
    have b1 : roundEvenQ q ≤ ⌊q⌋ + 1 := (roundEvenQ_bounds q).2
    have b2 : ⌊r⌋ ≤ roundEvenQ r := (roundEvenQ_bounds r).1
    omega

theorem roundEvenQ_neg (q : ℚ) : roundEvenQ (-q) = -roundEvenQ q := by
  by_cases hq : (⌊q⌋ : ℚ) = q
  · have h1 : roundEvenQ q = ⌊q⌋ := by
      rw [roundEvenQ, if_pos (by rw [hq]; norm_num)]
    have h2 : roundEvenQ (-q) = -⌊q⌋ := by
      have hcast : -q = ((-⌊q⌋ : ℤ) : ℚ) := by push_cast; rw [hq]
      rw [hcast, roundEvenQ_intCast]
    rw [h1, h2]
  · have hlt : (⌊q⌋ : ℚ) < q := lt_of_le_of_ne (Int.floor_le q) hq
    have h2 := Int.lt_floor_add_one q
    have hfneg : ⌊-q⌋ = -⌊q⌋ - 1 := by
      rw [Int.floor_eq_iff]
      constructor <;> push_cast <;> linarith
    rw [roundEvenQ, roundEvenQ, hfneg]
    by_cases ha : q - ⌊q⌋ < 1/2
    · rw [if_pos ha,
        if_neg (by push_cast; rw [not_lt]; linarith :
          ¬(-q - ((-⌊q⌋ - 1 : ℤ) : ℚ) < 1/2)),
        if_pos (by push_cast; linarith : 1/2 < -q - ((-⌊q⌋ - 1 : ℤ) : ℚ))]
      omega
    · rw [if_neg ha]
      rw [not_lt] at ha
      by_cases hb : 1/2 < q - ⌊q⌋
      · rw [if_pos hb,
          if_pos (by push_cast; linarith : -q - ((-⌊q⌋ - 1 : ℤ) : ℚ) < 1/2)]
        omega
      · rw [not_lt] at hb
        have hd : q - ⌊q⌋ = 1/2 := le_antisymm hb ha
        rw [if_neg hb.not_lt,
          if_neg (by push_cast; rw [not_lt]; linarith :
            ¬(-q - ((-⌊q⌋ - 1 : ℤ) : ℚ) < 1/2)),
          if_neg (by push_cast; rw [not_lt]; linarith :
            ¬(1/2 < -q - ((-⌊q⌋ - 1 : ℤ) : ℚ)))]
        by_cases hpar : 2 ∣ ⌊q⌋
        · rw [if_pos hpar, if_neg (by omega : ¬(2 ∣ -⌊q⌋ - 1))]
          omega
        · rw [if_neg hpar, if_pos (by omega : 2 ∣ -⌊q⌋ - 1)]
          omega

theorem log2_eq {x : ℚ} (hx : 0 < x) {E : ℤ}
    (h1 : (2 : ℚ) ^ E ≤ x) (h2 : x < 2 ^ (E + 1)) : Int.log 2 x = E := by
  have ha := Int.zpow_log_le_self (b := 2) (R := ℚ) one_lt_two hx
  have hb := Int.lt_zpow_succ_log_self (b := 2) (R := ℚ) one_lt_two x
  have c1 : Int.log 2 x < E + 1 :=
    (zpow_lt_zpow_iff_right₀ (one_lt_two : (1:ℚ) < 2)).mp
      (lt_of_le_of_lt ha h2)
  have c2 : E < Int.log 2 x + 1 :=
    (zpow_lt_zpow_iff_right₀ (one_lt_two : (1:ℚ) < 2)).mp
      (lt_of_le_of_lt h1 hb)
  omega

theorem fl_zero : fl 0 = 0 := by
  rw [fl, if_pos rfl]

theorem fl_err (q : ℚ) : |fl q - q| ≤ |q| / 2 ^ 53 := by
  by_cases hq : q = 0
  · subst hq
    simp [fl_zero]
  · rw [fl, if_neg hq]
    set E := Int.log 2 |q| with hE
    set e := E - 52 with he
    have hpe : (0:ℚ) < 2 ^ e := zpow_pos (by norm_num) e
    have herr := roundEvenQ_err (q / 2 ^ e)
    have hsplit : (roundEvenQ (q / 2 ^ e) : ℚ) * 2 ^ e - q
        = ((roundEvenQ (q / 2 ^ e) : ℚ) - q / 2 ^ e) * 2 ^ e := by
      field_simp
    have h1 : |(roundEvenQ (q / 2 ^ e) : ℚ) * 2 ^ e - q| ≤ 2 ^ e / 2 := by
      rw [hsplit, abs_mul, abs_of_pos hpe]
      calc |(roundEvenQ (q / 2 ^ e) : ℚ) - q / 2 ^ e| * 2 ^ e
          ≤ (1/2) * 2 ^ e := mul_le_mul_of_nonneg_right herr hpe.le
        _ = 2 ^ e / 2 := by ring
    refine h1.trans ?_
    have hq' : (0:ℚ) < |q| := abs_pos.mpr hq
    have hlow : (2:ℚ) ^ E ≤ |q| := Int.zpow_log_le_self one_lt_two hq'
    have hkey : (2:ℚ) ^ e / 2 = 2 ^ E / 2 ^ 53 := by
      rw [div_eq_div_iff (by norm_num) (by positivity)]
      have hl : (2:ℚ) ^ e * 2 ^ 53 = 2 ^ (e + 53) := by
        rw [← zpow_natCast (2:ℚ) 53, ← zpow_add₀ (two_ne_zero : (2:ℚ) ≠ 0)]
        norm_num
      have hr : (2:ℚ) ^ E * 2 = 2 ^ (E + 1) :=
        (zpow_add_one₀ (two_ne_zero : (2:ℚ) ≠ 0) E).symm
      rw [hl, hr]
      congr 1
      omega
    rw [hkey]
    exact div_le_div_of_nonneg_right hlow (by norm_num)

theorem fl_pos {q : ℚ} (hq : 0 < q) : 0 < fl q := by
  have herr := fl_err q
  rw [abs_of_pos hq, abs_le] at herr
  have hsmall : q / 2 ^ 53 < q := div_lt_self hq (by norm_num)
  linarith [herr.1]

theorem fl_nonneg {q : ℚ} (hq : 0 ≤ q) : 0 ≤ fl q := by
  rcases hq.eq_or_lt with h | h
  · rw [← h, fl_zero]
  · exact (fl_pos h).le

theorem fl_neg (q : ℚ) : fl (-q) = -fl q := by
  by_cases hq : q = 0
  · subst hq
    simp [fl_zero]
  · have h1 : |(-q)| = |q| := abs_neg q
    rw [fl, fl, if_neg hq, if_neg (neg_ne_zero.mpr hq), h1]
    have h2 : -q / 2 ^ (Int.log 2 |q| - 52)
        = -(q / 2 ^ (Int.log 2 |q| - 52)) := by ring
    rw [h2, roundEvenQ_neg]
    push_cast
    ring

theorem fl_nonpos {q : ℚ} (hq : q ≤ 0) : fl q ≤ 0 := by
  have h := fl_nonneg (q := -q) (by linarith)
  rw [fl_neg] at h
  linarith

theorem fl_int_exact (n : ℤ) (hn : |n| ≤ 2 ^ 52) : fl (n : ℚ) = n := by
  by_cases h0 : n = 0
  · subst h0
    push_cast
    exact fl_zero
  · have hq0 : ((n : ℚ)) ≠ 0 := Int.cast_ne_zero.mpr h0
    have hpos : (0:ℚ) < |(n : ℚ)| := abs_pos.mpr hq0
    rw [fl, if_neg hq0]
    set E := Int.log 2 |(n : ℚ)| with hE
    have hEle : E ≤ 52 := by
      have h1 : (2:ℚ) ^ E ≤ |(n : ℚ)| := Int.zpow_log_le_self one_lt_two hpos
      have h2 : |(n : ℚ)| ≤ (2:ℚ) ^ (52 : ℤ) := by
        rw [← Int.cast_abs]
        calc ((|n| : ℤ) : ℚ) ≤ ((2 ^ 52 : ℤ) : ℚ) := by exact_mod_cast hn
          _ = (2:ℚ) ^ (52 : ℤ) := by
            push_cast
            rw [show (52 : ℤ) = ((52 : ℕ) : ℤ) from rfl, zpow_natCast]
            norm_num
      rw [← zpow_le_zpow_iff_right₀ (one_lt_two : (1:ℚ) < 2)]
      exact le_trans h1 h2
    set k := (52 - E).toNat with hk
    have hkE : (k : ℤ) = 52 - E := Int.toNat_of_nonneg (by omega)
    have hpow : (2:ℚ) ^ (E - 52) = ((2:ℚ) ^ k)⁻¹ := by
      rw [← zpow_natCast (2:ℚ) k, ← zpow_neg]
      congr 1
      omega
    have hcast : (n : ℚ) / 2 ^ (E - 52) = ((n * 2 ^ k : ℤ) : ℚ) := by
      rw [hpow, div_eq_mul_inv, inv_inv]
      push_cast
      ring
    rw [hcast, roundEvenQ_intCast, hpow]
    have hne : ((2:ℚ) ^ k) ≠ 0 := by positivity
    push_cast
    field_simp

theorem fl_le_zpow {q : ℚ} (hq : 0 < q) :
    fl q ≤ 2 ^ (Int.log 2 |q| + 1) := by
  have hq0 : q ≠ 0 := hq.ne'
  rw [fl, if_neg hq0]
  set E := Int.log 2 |q| with hE
  set e := E - 52 with he
  have hpe : (0:ℚ) < 2 ^ e := zpow_pos (by norm_num) e
  have hub : q < 2 ^ (E + 1) := by
    have h := Int.lt_zpow_succ_log_self (b := 2) (R := ℚ) one_lt_two |q|
    calc q ≤ |q| := le_abs_self q
      _ < ((2:ℕ):ℚ) ^ (E + 1) := h
      _ = 2 ^ (E + 1) := by norm_num
  have hx : q / 2 ^ e < (2:ℚ) ^ (53 : ℤ) := by
    rw [div_lt_iff hpe, ← zpow_add₀ (two_ne_zero : (2:ℚ) ≠ 0)]
    rw [show (53:ℤ) + e = E + 1 by omega]
    exact hub
  have herr := roundEvenQ_err (q / 2 ^ e)
  rw [abs_le] at herr
  have h53 : ((2 ^ 53 : ℤ) : ℚ) = (2:ℚ) ^ (53 : ℤ) := by
    push_cast
    rw [show (53 : ℤ) = ((53 : ℕ) : ℤ) from rfl, zpow_natCast]
    norm_num
  have hint : roundEvenQ (q / 2 ^ e) ≤ 2 ^ 53 := by
    have hlt : (roundEvenQ (q / 2 ^ e) : ℚ) < ((2 ^ 53 : ℤ) : ℚ) + 1 := by
      rw [h53]
      linarith [herr.2]
    exact Int.lt_add_one_iff.mp (by exact_mod_cast hlt)
  calc (roundEvenQ (q / 2 ^ e) : ℚ) * 2 ^ e
      ≤ ((2 ^ 53 : ℤ) : ℚ) * 2 ^ e := by
        apply mul_le_mul_of_nonneg_right _ hpe.le
        exact_mod_cast hint
    _ = 2 ^ (E + 1) := by
        rw [h53, ← zpow_add₀ (two_ne_zero : (2:ℚ) ≠ 0)]
        congr 1
        omega

theorem zpow_le_fl {q : ℚ} (hq : 0 < q) :
    2 ^ (Int.log 2 |q|) ≤ fl q := by
  have hq0 : q ≠ 0 := hq.ne'
  rw [fl, if_neg hq0]
  set E := Int.log 2 |q| with hE
  set e := E - 52 with he
  have hpe : (0:ℚ) < 2 ^ e := zpow_pos (by norm_num) e
  have hlb : (2:ℚ) ^ E ≤ q := by
    have h := Int.zpow_log_le_self (b := 2) (R := ℚ) one_lt_two
      (abs_pos.mpr hq0)
    calc (2:ℚ) ^ E = ((2:ℕ):ℚ) ^ E := by norm_num
      _ ≤ |q| := h
      _ = q := abs_of_pos hq
  have hx : (2:ℚ) ^ (52 : ℤ) ≤ q / 2 ^ e := by
    rw [le_div_iff hpe, ← zpow_add₀ (two_ne_zero : (2:ℚ) ≠ 0)]
    rw [show (52:ℤ) + e = E by omega]
    exact hlb
  have herr := roundEvenQ_err (q / 2 ^ e)
  rw [abs_le] at herr
  have h52 : ((2 ^ 52 : ℤ) : ℚ) = (2:ℚ) ^ (52 : ℤ) := by
    push_cast
    rw [show (52 : ℤ) = ((52 : ℕ) : ℤ) from rfl, zpow_natCast]
    norm_num
  have hint : (2 ^ 52 : ℤ) ≤ roundEvenQ (q / 2 ^ e) := by
    have hgt : ((2 ^ 52 : ℤ) : ℚ) - 1 < (roundEvenQ (q / 2 ^ e) : ℚ) := by
      rw [h52]
      linarith [herr.1]
    have hgt2 : (2 ^ 52 : ℤ) - 1 < roundEvenQ (q / 2 ^ e) := by
      exact_mod_cast hgt
    omega
  calc (2:ℚ) ^ E = ((2 ^ 52 : ℤ) : ℚ) * 2 ^ e := by
        rw [h52, ← zpow_add₀ (two_ne_zero : (2:ℚ) ≠ 0)]
        congr 1
        omega
    _ ≤ (roundEvenQ (q / 2 ^ e) : ℚ) * 2 ^ e := by
        apply mul_le_mul_of_nonneg_right _ hpe.le
        exact_mod_cast hint

theorem fl_mono_pos {q r : ℚ} (hq : 0 < q) (h : q ≤ r) : fl q ≤ fl r := by
  have hr : 0 < r := lt_of_lt_of_le hq h
  have hEle : Int.log 2 |q| ≤ Int.log 2 |r| := by
    have h1 : (2:ℚ) ^ (Int.log 2 |q|) ≤ |q| :=
      Int.zpow_log_le_self one_lt_two (abs_pos.mpr hq.ne')
    have h2 : |r| < 2 ^ (Int.log 2 |r| + 1) :=
      Int.lt_zpow_succ_log_self one_lt_two |r|
    have h3 : |q| ≤ |r| := by
      rw [abs_of_pos hq, abs_of_pos hr]
      exact h
    have h4 : (2:ℚ) ^ (Int.log 2 |q|) < 2 ^ (Int.log 2 |r| + 1) :=
      lt_of_le_of_lt (h1.trans h3) h2
    have := (zpow_lt_zpow_iff_right₀ (one_lt_two : (1:ℚ) < 2)).mp h4
    omega
  rcases eq_or_lt_of_le hEle with hEE | hEE
  · rw [fl, fl, if_neg hq.ne', if_neg hr.ne', ← hEE]
    set e := Int.log 2 |q| - 52 with he
    have hpe : (0:ℚ) < 2 ^ e := zpow_pos (by norm_num) e
    have hx : q / 2 ^ e ≤ r / 2 ^ e :=
      div_le_div_of_nonneg_right h hpe.le
    have hm := roundEvenQ_mono hx
    have hmq : ((roundEvenQ (q / 2 ^ e) : ℤ) : ℚ)
        ≤ ((roundEvenQ (r / 2 ^ e) : ℤ) : ℚ) := by exact_mod_cast hm
    exact mul_le_mul_of_nonneg_right hmq hpe.le
  · calc fl q ≤ 2 ^ (Int.log 2 |q| + 1) := fl_le_zpow hq
      _ ≤ 2 ^ (Int.log 2 |r|) :=
        zpow_le_zpow_right₀ one_le_two (by omega)
      _ ≤ fl r := zpow_le_fl hr

theorem fl_mono {q r : ℚ} (h : q ≤ r) : fl q ≤ fl r := by
  rcases lt_or_le 0 q with hq | hq
  · exact fl_mono_pos hq h
  · rcases lt_or_le r 0 with hr | hr
    · have h2 : fl (-r) ≤ fl (-q) := fl_mono_pos (by linarith) (by linarith)
      rw [fl_neg, fl_neg] at h2
      linarith
    · exact le_trans (fl_nonpos hq) (fl_nonneg hr)

/-- Evaluation rule for `fl` in the round-down (or exact) case: if
`q * 2 ^ k` lies in `[m, m + 1/2)` for a 53-bit significand `m`, then
`fl q = m / 2 ^ k`. -/
theorem fl_eq_of_bounds (q : ℚ) (h0 : 0 < q) (m : ℤ) (k : ℕ)
    (hm1 : 2 ^ 52 ≤ m) (hm2 : m < 2 ^ 53)
    (hlo : (m : ℚ) ≤ q * 2 ^ k) (hhi : q * 2 ^ k < (m : ℚ) + 1 / 2) :
    fl q = (m : ℚ) / 2 ^ k := by
  have hpk : (0:ℚ) < 2 ^ k := by positivity
  have h52 : ((2 ^ 52 : ℤ) : ℚ) = (2:ℚ) ^ (52 : ℤ) := by
    push_cast
    rw [show (52 : ℤ) = ((52 : ℕ) : ℤ) from rfl, zpow_natCast]
    norm_num
  have h53 : ((2 ^ 53 : ℤ) : ℚ) = (2:ℚ) ^ (53 : ℤ) := by
    push_cast
    rw [show (53 : ℤ) = ((53 : ℕ) : ℤ) from rfl, zpow_natCast]
    norm_num
  have hkq : ((2:ℚ) ^ k) = (2:ℚ) ^ (k : ℤ) := (zpow_natCast 2 k).symm
  have hlog : Int.log 2 |q| = 52 - k := by
    rw [abs_of_pos h0]
    apply log2_eq h0
    · rw [show (52 : ℤ) - k = 52 + (-(k:ℤ)) by ring,
        zpow_add₀ (two_ne_zero : (2:ℚ) ≠ 0), zpow_neg, ← hkq]
      rw [← div_eq_mul_inv, div_le_iff hpk]
      calc (2:ℚ) ^ (52 : ℤ) = ((2 ^ 52 : ℤ) : ℚ) := h52.symm
        _ ≤ (m : ℚ) := by exact_mod_cast hm1
        _ ≤ q * 2 ^ k := hlo
    · rw [show (52 : ℤ) - k + 1 = 53 + (-(k:ℤ)) by ring,
        zpow_add₀ (two_ne_zero : (2:ℚ) ≠ 0), zpow_neg, ← hkq]
      rw [← div_eq_mul_inv, lt_div_iff hpk]
      calc q * 2 ^ k < (m : ℚ) + 1/2 := hhi
        _ ≤ ((2 ^ 53 : ℤ) : ℚ) - 1 + 1/2 := by
            have : (m : ℚ) ≤ ((2 ^ 53 : ℤ) : ℚ) - 1 := by
              exact_mod_cast Int.le_sub_one_of_lt hm2
            linarith
        _ ≤ (2:ℚ) ^ (53 : ℤ) := by
            rw [← h53]
            linarith
  rw [fl, if_neg h0.ne', hlog]
  have he : (52 : ℤ) - k - 52 = -(k : ℤ) := by ring
  rw [he, zpow_neg, ← hkq, div_eq_mul_inv, inv_inv]
  have hfl : ⌊q * 2 ^ k⌋ = m :=
    Int.floor_eq_iff.mpr ⟨hlo, by push_cast; linarith⟩
  have hre : roundEvenQ (q * 2 ^ k) = m := by
    rw [roundEvenQ, hfl, if_pos (by push_cast; linarith)]
  rw [hre, ← div_eq_mul_inv]

/-! ### The gradient arithmetic -/

theorem tOf_zero (h : ℕ) : tOf h 0 = 0 := by
  rw [tOf]
  norm_num
  exact fl_zero

theorem tOf_last {h : ℕ} (hh : 1 < h) : tOf h (h - 1) = 1 := by
  have hc : ((h - 1 : ℕ) : ℚ) = (h : ℚ) - 1 := by
    have : (1 : ℕ) ≤ h := by omega
    push_cast [Nat.cast_sub this]
    ring
  have hpos : (0 : ℚ) < (h : ℚ) - 1 := by
    have : (1 : ℚ) < (h : ℚ) := by exact_mod_cast hh
    linarith
  rw [tOf, hc, div_self (ne_of_gt hpos)]
  have h1 := fl_int_exact 1 (by norm_num)
  push_cast at h1
  exact h1

theorem tOf_mono {h : ℕ} (hh : 1 < h) {y1 y2 : ℕ} (hy : y1 ≤ y2) :
    tOf h y1 ≤ tOf h y2 := by
  have hpos : (0 : ℚ) < (h : ℚ) - 1 := by
    have : (1 : ℚ) < (h : ℚ) := by exact_mod_cast hh
    linarith
  have hyq : (y1 : ℚ) ≤ (y2 : ℚ) := by exact_mod_cast hy
  exact fl_mono (div_le_div_of_nonneg_right hyq hpos.le)

theorem lerp_zero (a b : ℤ) (ha : |a| ≤ 2 ^ 52) : lerp a b 0 = a := by
  rw [lerp, mul_zero, fl_zero, add_zero, fl_int_exact a ha,
    fl_int_exact a ha, truncQ_intCast]

theorem lerp_one (a b : ℤ) (ha : |a| ≤ 2 ^ 52) (hb : |b| ≤ 2 ^ 52)
    (hc : |b - a| ≤ 2 ^ 52) : lerp a b 1 = b := by
  have hsub : (b : ℚ) - (a : ℚ) = ((b - a : ℤ) : ℚ) := by push_cast; ring
  rw [lerp, hsub, fl_int_exact _ hc, mul_one, fl_int_exact _ hc,
    fl_int_exact a ha]
  have hab : (a : ℚ) + ((b - a : ℤ) : ℚ) = ((b : ℤ) : ℚ) := by
    push_cast
    ring
  rw [hab, fl_int_exact b hb, truncQ_intCast]

theorem lerp_mono_of_le {a b : ℤ} (hab : a ≤ b) {t1 t2 : ℚ} (h : t1 ≤ t2) :
    lerp a b t1 ≤ lerp a b t2 := by
  apply truncQ_mono
  apply fl_mono
  have hc : (0:ℚ) ≤ fl ((b : ℚ) - (a : ℚ)) :=
    fl_nonneg (by exact_mod_cast sub_nonneg.mpr hab)
  have hp : fl ((b : ℚ) - (a : ℚ)) * t1 ≤ fl ((b : ℚ) - (a : ℚ)) * t2 :=
    mul_le_mul_of_nonneg_left h hc
  have := fl_mono hp
  linarith

theorem lerp_anti_of_ge {a b : ℤ} (hab : b ≤ a) {t1 t2 : ℚ} (h : t1 ≤ t2) :
    lerp a b t2 ≤ lerp a b t1 := by
  apply truncQ_mono
  apply fl_mono
  have hc : fl ((b : ℚ) - (a : ℚ)) ≤ 0 :=
    fl_nonpos (by exact_mod_cast sub_nonpos.mpr hab)
  have hp : fl ((b : ℚ) - (a : ℚ)) * t2 ≤ fl ((b : ℚ) - (a : ℚ)) * t1 :=
    mul_le_mul_of_nonpos_left h hc
  have := fl_mono hp
  linarith

theorem abs_le_pow52_of_range {x : ℤ} (h1 : 0 ≤ x) (h2 : x ≤ 255) :
    |x| ≤ 2 ^ 52 := by
  have h52 : (2:ℤ) ^ 52 = 4503599627370496 := by norm_num
  rw [abs_le]
  omega

theorem abs_sub_le_pow52_of_range {x y : ℤ} (h1 : 0 ≤ x) (h2 : x ≤ 255)
    (h3 : 0 ≤ y) (h4 : y ≤ 255) : |x - y| ≤ 2 ^ 52 := by
  have h52 : (2:ℤ) ^ 52 = 4503599627370496 := by norm_num
  rw [abs_le]
  omega

theorem rowColor_zero (top bottom : Color) (h : ℕ) (ht : top.inRange) :
    rowColor top bottom h 0 = top := by
  cases top with
  | mk tr tg tb =>
    simp only [Color.inRange] at ht
    obtain ⟨h1, h2, h3, h4, h5, h6⟩ := ht
    simp only [rowColor, tOf_zero, Color.mk.injEq]
    exact ⟨lerp_zero _ _ (abs_le_pow52_of_range h1 h2),
           lerp_zero _ _ (abs_le_pow52_of_range h3 h4),
           lerp_zero _ _ (abs_le_pow52_of_range h5 h6)⟩

theorem rowColor_last (top bottom : Color) {h : ℕ} (hh : 1 < h)
    (ht : top.inRange) (hb : bottom.inRange) :
    rowColor top bottom h (h - 1) = bottom := by
  cases top with
  | mk tr tg tb =>
    cases bottom with
    | mk br bg bb =>
      simp only [Color.inRange] at ht hb
      obtain ⟨t1, t2, t3, t4, t5, t6⟩ := ht
      obtain ⟨b1, b2, b3, b4, b5, b6⟩ := hb
      simp only [rowColor, tOf_last hh, Color.mk.injEq]
      exact ⟨lerp_one _ _ (abs_le_pow52_of_range t1 t2)
               (abs_le_pow52_of_range b1 b2)
               (abs_sub_le_pow52_of_range b1 b2 t1 t2),
             lerp_one _ _ (abs_le_pow52_of_range t3 t4)
               (abs_le_pow52_of_range b3 b4)
               (abs_sub_le_pow52_of_range b3 b4 t3 t4),
             lerp_one _ _ (abs_le_pow52_of_range t5 t6)
               (abs_le_pow52_of_range b5 b6)
               (abs_sub_le_pow52_of_range b5 b6 t5 t6)⟩

/-- `x1` to `x2` moves in the direction from `a` to `b`. -/
def chanMono (a b x1 x2 : ℤ) : Prop :=
  (a ≤ b → x1 ≤ x2) ∧ (b ≤ a → x2 ≤ x1)

/-- The full functional specification of `make_gradient` for `height > 1`:
it succeeds, produces `h` rows, row `y` is `w` copies of the truncated-lerp
color at parameter `y / (h - 1)`, the first row is `top`, the last row is
`bottom`, and each channel is monotone in `y` in the direction from the top
channel value to the bottom channel value. -/
def gradientSpec (w h : ℕ) (top bottom : Color) : Prop :=
  ∃ rows : List (List Color),
    make_gradient w h top bottom = Except.ok rows ∧
    rows.length = h ∧
    (∀ y, y < h → rows[y]? = some (List.replicate w (rowColor top bottom h y))) ∧
    rowColor top bottom h 0 = top ∧
    rowColor top bottom h (h - 1) = bottom ∧
    (∀ y1 y2, y1 ≤ y2 → y2 < h →
      chanMono top.r bottom.r (rowColor top bottom h y1).r (rowColor top bottom h y2).r ∧
      chanMono top.g bottom.g (rowColor top bottom h y1).g (rowColor top bottom h y2).g ∧
      chanMono top.b bottom.b (rowColor top bottom h y1).b (rowColor top bottom h y2).b)

/-- Claim C1 (code_bug evidence): for every width and every color pair,
`make_gradient` with `height = 1` does NOT return a single row equal to
`top`; the loop body computes `t = 0 / (1 - 1)` and raises
`ZeroDivisionError`.  The claim's required behavior (define `t = 0` when
`H = 1`) is absent from the code. -/
theorem make_gradient_height_one_raises (w : ℕ) (top bottom : Color) :
    make_gradient w 1 top bottom = Except.error zeroDivMsg := rfl

/-- Claim C2: for every color pair with channels in `[0, 255]` and every
height `H > 1`, the gradient succeeds; its first row is `top`, its last row
is `bottom`, each row is horizontally constant, row `y`'s color is the
per-channel integer truncation of `a + (b - a) * (y / (H - 1))`, and each
channel is monotone in `y` between the top and bottom channel values. -/
theorem make_gradient_correct (w h : ℕ) (top bottom : Color)
    (hh : 1 < h) (ht : top.inRange) (hb : bottom.inRange) :
    gradientSpec w h top bottom := by
  refine ⟨(List.range h).map (fun y => List.replicate w (rowColor top bottom h y)),
    ?_, ?_, ?_, rowColor_zero top bottom h ht, rowColor_last top bottom hh ht hb, ?_⟩
  · rw [make_gradient, if_neg (by omega)]
  · simp
  · intro y hy
    simp [hy]
  · intro y1 y2 h12 _
    have hmono := tOf_mono hh h12
    simp only [rowColor, chanMono]
    exact ⟨⟨fun hab => lerp_mono_of_le hab hmono, fun hab => lerp_anti_of_ge hab hmono⟩,
           ⟨fun hab => lerp_mono_of_le hab hmono, fun hab => lerp_anti_of_ge hab hmono⟩,
           ⟨fun hab => lerp_mono_of_le hab hmono, fun hab => lerp_anti_of_ge hab hmono⟩⟩

/-- Concrete instance of C2 at `w = 2`, `h = 3` with the gradient colors of
the script. -/
theorem make_gradient_correct_witness :
    (1 < 3 ∧ (Color.mk 15 21 32).inRange ∧ (Color.mk 26 42 68).inRange) ∧
    gradientSpec 2 3 (Color.mk 15 21 32) (Color.mk 26 42 68) :=
  ⟨⟨by decide, by decide, by decide⟩,
   make_gradient_correct 2 3 (Color.mk 15 21 32) (Color.mk 26 42 68)
     (by decide) (by decide) (by decide)⟩

/-- Claim C2 counterexample: the row colors are NOT the integer truncation
of the exact value of `a + (b - a) * (y / (H - 1))`.  At `top = (0,0,0)`,
`bottom = (55,55,55)`, `H = 12`, `y = 3` the program's double-precision
evaluation yields channel value `14` (the float product
`55 * fl(3/11) = 14.99999999999999822...` truncates to 14), while the
exact formula gives `trunc(55 * 3/11) = trunc(15) = 15`. -/
theorem make_gradient_exact_formula_fails :
    rowColor (Color.mk 0 0 0) (Color.mk 55 55 55) 12 3 = Color.mk 14 14 14 ∧
    truncQ ((0 : ℚ) + ((55 : ℚ) - (0 : ℚ)) * ((3 : ℚ) / ((12 : ℚ) - 1))) = 15 ∧
    ∃ rows, make_gradient 1 12 (Color.mk 0 0 0) (Color.mk 55 55 55) =
        Except.ok rows ∧
      rows[3]? = some [Color.mk 14 14 14] ∧
      rows[3]? ≠ some [Color.mk 15 15 15] := by
  have ht : tOf 12 3 = 4913017775313268 / 2 ^ 54 := by
    rw [tOf, show ((3:ℕ):ℚ) / (((12:ℕ):ℚ) - 1) = 3/11 by norm_num]
    exact fl_eq_of_bounds _ (by norm_num) _ 54 (by norm_num) (by norm_num)
      (by norm_num) (by norm_num)
  have h55 : fl ((55:ℤ):ℚ) = ((55:ℤ):ℚ) := fl_int_exact 55 (by norm_num)
  have hlerp : lerp 0 55 (tOf 12 3) = 14 := by
    rw [lerp, ht]
    rw [show ((55:ℤ):ℚ) - ((0:ℤ):ℚ) = ((55:ℤ):ℚ) by norm_num]
    rw [h55]
    rw [show fl ((0:ℤ):ℚ) = 0 by rw [show ((0:ℤ):ℚ) = 0 by norm_num, fl_zero]]
    rw [show ((55:ℤ):ℚ) * (4913017775313268 / 2 ^ 54)
        = (55:ℚ) * (4913017775313268 / 2 ^ 54) by norm_num]
    rw [show fl ((55:ℚ) * (4913017775313268 / 2 ^ 54))
        = 8444249301319679 / 2 ^ 49 from
      fl_eq_of_bounds _ (by norm_num) _ 49 (by norm_num) (by norm_num)
        (by norm_num) (by norm_num)]
    rw [zero_add]
    rw [show fl ((8444249301319679 : ℚ) / 2 ^ 49)
        = 8444249301319679 / 2 ^ 49 from
      fl_eq_of_bounds _ (by norm_num) _ 49 (by norm_num) (by norm_num)
        (by norm_num) (by norm_num)]
    rw [truncQ_eq_floor (by norm_num)]
    exact Int.floor_eq_iff.mpr ⟨by norm_num, by norm_num⟩
  have hrow : rowColor (Color.mk 0 0 0) (Color.mk 55 55 55) 12 3
      = Color.mk 14 14 14 := by
    simp only [rowColor, Color.mk.injEq]
    exact ⟨hlerp, hlerp, hlerp⟩
  refine ⟨hrow, ?_, ?_⟩
  · rw [show ((0 : ℚ) + ((55 : ℚ) - (0 : ℚ)) * ((3 : ℚ) / ((12 : ℚ) - 1)))
        = ((15:ℤ):ℚ) by norm_num]
    exact truncQ_intCast 15
  · refine ⟨(List.range 12).map
      (fun y => List.replicate 1 (rowColor (Color.mk 0 0 0) (Color.mk 55 55 55) 12 y)),
      ?_, ?_, ?_⟩
    · rw [make_gradient, if_neg (by omega)]
    · simp only [List.getElem?_map, List.getElem?_range (by omega : 3 < 12),
        Option.map_some', hrow]
      rfl
    · simp only [List.getElem?_map, List.getElem?_range (by omega : 3 < 12),
        Option.map_some', hrow]
      decide

/-! ## Fonts and the render environment -/

/-- A resolved font: either a TrueType font loaded from a path at a point
size (`ImageFont.truetype`) or Pillow's built-in bitmap fallback
(`ImageFont.load_default()`). -/
inductive Font where
  | truetype (path : String) (size : ℤ)
  | fallback
deriving DecidableEq, Repr

/-- Text bounding box as returned by `draw.textbbox((0, 0), text, font)`:
`(x0, y0, x1, y1)`. -/
structure BBox where
  x0 : ℤ
  y0 : ℤ
  x1 : ℤ
  y1 : ℤ
deriving DecidableEq, Repr

/-- Pillow image modes used by the script. -/
inductive Mode where
  | RGB
  | RGBA
  | L
deriving DecidableEq, Repr

/-- An image tracked at the level the render pipeline's claims need: its
mode and its dimensions.  None of the drawing operations the script uses
(`draw.text`, `paste` with a mask, `rounded_rectangle`) change either. -/
structure Img where
  mode : Mode
  width : ℤ
  height : ℤ
deriving DecidableEq, Repr

/-- `Image.convert(mode)`: changes the mode, keeps the dimensions. -/
def Img.convert (i : Img) (m : Mode) : Img :=
  { i with mode := m }

/-- `Image.resize((w, h), LANCZOS)`: changes the dimensions, keeps the
mode. -/
def Img.resize (i : Img) (w h : ℤ) : Img :=
  { i with width := w, height := h }

/-- `draw.text(pos, text, fill, font)`: draws pixels in place; mode and
dimensions unchanged. -/
def Img.drawText (i : Img) (pos : ℤ × ℤ) (text : String) (fill : Color)
    (font : Font) : Img :=
  i

/-- `canvas.paste(src, pos, mask)`: writes pixels of the canvas in place;
the canvas keeps its own mode and dimensions (the pasted image and the mask
do not alter them). -/
def Img.paste (i : Img) (src : Img) (pos : ℤ × ℤ) (mask : Img) : Img :=
  i

/-- `draw.rounded_rectangle(xy, radius, outline/fill, width)`: draws pixels
in place; mode and dimensions unchanged. -/
def Img.roundedRect (i : Img) (xy : ℤ × ℤ × ℤ × ℤ) (radius : ℤ)
    (outline : Color) (width : ℤ) : Img :=
  i

/-- The external world the script interacts with: filesystem existence
probes, whether `ImageFont.truetype` succeeds on a path, the home
directory, text measurement for a string in a font, and image decoding
(`Image.open`; `none` models `FileNotFoundError` or a decode error). -/
structure Env where
  fileExists : String → Bool
  loadOk : String → Bool
  home : String
  textbbox : String → Font → BBox
  openImage : String → Option Img

/-! ## Font resolution (`load_font`) -/

/-- The fixed search directories of `load_font` (macOS system font paths
plus the user's `~/Library/Fonts`). -/
def searchDirs (home : String) : List String :=
  ["/System/Library/Fonts",
   "/System/Library/Fonts/Supplemental",
   "/Library/Fonts",
   home ++ "/Library/Fonts"]

/-- The extension order of `load_font`'s middle loop. -/
def fontSuffixes : List String := [".ttf", ".ttc", ".otf"]

/-- The innermost loop of `load_font`: for one family and one extension,
try each directory; a candidate that exists but fails to load is skipped
(`except Exception: continue`). -/
def tryDirs (env : Env) (fam suf : String) (size : ℤ) :
    List String → Option Font
  | [] => none
  | d :: rest =>
    let candidate := d ++ "/" ++ fam ++ suf
    if env.fileExists candidate then
      if env.loadOk candidate then some (Font.truetype candidate size)
      else tryDirs env fam suf size rest
    else tryDirs env fam suf size rest

/-- The middle loop of `load_font`: try each extension in order. -/
def trySuffixes (env : Env) (fam : String) (size : ℤ) :
    List String → Option Font
  | [] => none
  | suf :: rest =>
    match tryDirs env fam suf size (searchDirs env.home) with
    | some f => some f
    | none => trySuffixes env fam size rest

/-- The outer loop of `load_font`: try each family in order. -/
def tryFamilies (env : Env) (size : ℤ) : List String → Option Font
  | [] => none
  | fam :: rest =>
    match trySuffixes env fam size fontSuffixes with
    | some f => some f
    | none => tryFamilies env size rest

/-- Source `load_font(families, size)`.  The `Bool` records whether the
fallback warning was printed to stderr. -/
def load_font (env : Env) (families : List String) (size : ℤ) :
    Font × Bool :=
  match tryFamilies env size families with
  | some f => (f, false)
  | none => (Font.fallback, true)

/-- The flattened candidate list in exactly the nested loop order of the
source: family (outer), then extension in `.ttf`, `.ttc`, `.otf` order,
then directory (inner). -/
def candidatePaths (home : String) (families : List String) : List String :=
  families.flatMap (fun fam =>
    fontSuffixes.flatMap (fun suf =>
      (searchDirs home).map (fun d => d ++ "/" ++ fam ++ suf)))

/-- A candidate resolves when the file exists and `ImageFont.truetype`
succeeds on it. -/
def resolves (env : Env) (c : String) : Bool :=
  env.fileExists c && env.loadOk c

theorem tryDirs_eq (env : Env) (fam suf : String) (size : ℤ)
    (dirs : List String) :
    tryDirs env fam suf size dirs =
      ((dirs.map (fun d => d ++ "/" ++ fam ++ suf)).find? (resolves env)).map
        (fun c => Font.truetype c size) := by
  induction dirs with
  | nil => rfl
  | cons d rest ih =>
    by_cases h1 : env.fileExists (d ++ "/" ++ fam ++ suf) <;>
      by_cases h2 : env.loadOk (d ++ "/" ++ fam ++ suf) <;>
        simp [tryDirs, List.find?_cons, resolves, h1, h2, ih]

theorem trySuffixes_eq (env : Env) (fam : String) (size : ℤ)
    (sufs : List String) :
    trySuffixes env fam size sufs =
      ((sufs.flatMap (fun suf =>
          (searchDirs env.home).map (fun d => d ++ "/" ++ fam ++ suf))).find?
        (resolves env)).map (fun c => Font.truetype c size) := by
  induction sufs with
  | nil => rfl
  | cons suf rest ih =>
    rw [trySuffixes, tryDirs_eq, ih, List.flatMap_cons, List.find?_append]
    cases ((searchDirs env.home).map
        (fun d => d ++ "/" ++ fam ++ suf)).find? (resolves env) <;>
      simp

theorem tryFamilies_eq (env : Env) (size : ℤ) (families : List String) :
    tryFamilies env size families =
      ((candidatePaths env.home families).find? (resolves env)).map
        (fun c => Font.truetype c size) := by
  induction families with
  | nil => rfl
  | cons fam rest ih =>
    rw [tryFamilies, trySuffixes_eq, ih]
    simp only [candidatePaths, List.flatMap_cons, List.find?_append]
    cases (fontSuffixes.flatMap (fun suf =>
        (searchDirs env.home).map (fun d => d ++ "/" ++ fam ++ suf))).find?
        (resolves env) <;>
      simp

/-- Claim C4: `load_font` is exactly a first-match search over the
candidate paths in nested order — family (outer loop), then extension in
`.ttf`, `.ttc`, `.otf` order, then directory — returning the first
candidate that exists and loads as a TrueType font with no warning; when
no candidate resolves it returns the built-in fallback font and emits the
stderr warning.  It is a total function of the environment: no input makes
it raise or abort. -/
theorem load_font_first_match (env : Env) (families : List String)
    (size : ℤ) :
    load_font env families size =
      match (candidatePaths env.home families).find? (resolves env) with
      | some c => (Font.truetype c size, false)
      | none => (Font.fallback, true) := by
  rw [load_font, tryFamilies_eq]
  cases (candidatePaths env.home families).find? (resolves env) <;> rfl

/-! ## Module-level constants of the script -/

def CANVAS_W : ℤ := 1320
def CANVAS_H : ℤ := 2868
def GRAD_TOP : Color := ⟨15, 21, 32⟩
def GRAD_BOTTOM : Color := ⟨26, 42, 68⟩
def COLOR_HEADLINE : Color := ⟨255, 255, 255⟩
def COLOR_SUBTITLE : Color := ⟨122, 156, 198⟩
def FRAME_BORDER_COLOR : Color := ⟨61, 135, 199⟩
def FRAME_BORDER_WIDTH : ℤ := 3
def FRAME_CORNER_RADIUS : ℤ := 40
def HEADLINE_Y : ℤ := 200
def SUBTITLE_GAP : ℤ := 40
def DEVICE_TOP_PAD : ℤ := 120
def DEVICE_SIDE_PAD : ℤ := 80
def DEVICE_BOTTOM_PAD : ℤ := 80
def HEADLINE_SIZE : ℤ := 60
def SUBTITLE_SIZE : ℤ := 32

def serif_families : List String := ["Georgia", "Times New Roman", "NewYork"]
def sans_families : List String :=
  ["Helvetica", "HelveticaNeue", "Arial", "SF-Pro-Display-Regular"]

/-! ## Text layout (render steps 3 and 4) -/

/-- The layout quantities computed in `render` steps 3–4. -/
structure Layout where
  hl_x : ℤ
  hl_y : ℤ
  hl_w : ℤ
  hl_h : ℤ
  st_x : ℤ
  st_y : ℤ
  st_w : ℤ
  st_bottom : ℤ
deriving DecidableEq, Repr

/-- The headline/subtitle measurement and placement arithmetic of `render`:
widths and heights from `draw.textbbox`, horizontal centering with Python's
floor division `//`, headline at fixed `HEADLINE_Y`, subtitle at
`hl_y + hl_h + SUBTITLE_GAP`. -/
def layoutText (env : Env) (font_headline font_subtitle : Font)
    (headline subtitle : String) : Layout :=
  let hlB := env.textbbox headline font_headline
  let hl_w := hlB.x1 - hlB.x0
  let hl_h := hlB.y1 - hlB.y0
  let hl_x := Int.fdiv (CANVAS_W - hl_w) 2
  let hl_y := HEADLINE_Y
  let stB := env.textbbox subtitle font_subtitle
  let st_w := stB.x1 - stB.x0
  let st_h := stB.y1 - stB.y0
  let st_x := Int.fdiv (CANVAS_W - st_w) 2
  let st_y := hl_y + hl_h + SUBTITLE_GAP
  ⟨hl_x, hl_y, hl_w, hl_h, st_x, st_y, st_w, st_y + st_h⟩

/-! ## Aspect-fit scaling (render step 6) -/

/-- The scale factor `min(frame_inner_w / sc_w, frame_inner_h / sc_h)`:
each `int / int` true division is correctly rounded to binary64, and
`min` compares the two doubles exactly. -/
def fitScale (inner_w inner_h sc_w sc_h : ℤ) : ℚ :=
  min (fl ((inner_w : ℚ) / (sc_w : ℚ))) (fl ((inner_h : ℚ) / (sc_h : ℚ)))

/-- `new_w = int(sc_w * scale)` and `new_h = int(sc_h * scale)`: the ints
convert to doubles (rounding), the products round, `int(...)` truncates
toward zero. -/
def scaledDims (inner_w inner_h sc_w sc_h : ℤ) : ℤ × ℤ :=
  let scale := fitScale inner_w inner_h sc_w sc_h
  (truncQ (fl (fl (sc_w : ℚ) * scale)), truncQ (fl (fl (sc_h : ℚ) * scale)))

/-! ## Filesystem state and the render pipeline -/

/-- A record of one `canvas.save(path, format)` call. -/
structure SavedFile where
  path : String
  format : String
  mode : Mode
  width : ℤ
  height : ℤ
deriving DecidableEq, Repr

/-- The observable filesystem effects of `render`: directories created and
files written. -/
structure FS where
  dirs : List String
  saved : List SavedFile
deriving DecidableEq, Repr

/-- `Path(p).parent` as a string (everything before the last slash). -/
def parentDir (p : String) : String :=
  ⟨(((p.data.reverse.dropWhile (fun c => c != '/')).drop 1)).reverse⟩

/-- `out.parent.mkdir(parents=True, exist_ok=True)`. -/
def FS.mkdirParents (fs : FS) (p : String) : FS :=
  { fs with dirs := parentDir p :: fs.dirs }

/-- `canvas.save(str(out), "PNG")`: records the path, the (hard-coded)
format, and the image's mode and dimensions. -/
def FS.save (fs : FS) (path fmt : String) (img : Img) : FS :=
  { fs with saved := ⟨path, fmt, img.mode, img.width, img.height⟩ :: fs.saved }

/-- If `height = 1` the gradient loop raises before the image is returned;
otherwise the canvas is a fresh `Image.new("RGB", (width, height))` whose
rows have been painted. -/
def gradientCanvas (width height : ℤ) : Except String Img :=
  if height = 1 then Except.error zeroDivMsg
  else Except.ok ⟨Mode.RGB, width, height⟩

/-- Source `render(input_path, output_path, headline, subtitle)`, embedded
as a state-passing function: the returned `FS` is the filesystem after the
call, and the `Except` is the composed canvas on success or the first
propagated exception.  The step order follows the source exactly: gradient
canvas, font loading, headline, subtitle, frame geometry, screenshot
open/convert/scale/mask/paste, frame border, mkdir, save. -/
def render (env : Env) (fs : FS)
    (input_path output_path headline subtitle : String) :
    FS × Except String Img :=
  match gradientCanvas CANVAS_W CANVAS_H with
  | Except.error e => (fs, Except.error e)
  | Except.ok canvas =>
    let font_headline := (load_font env serif_families HEADLINE_SIZE).1
    let font_subtitle := (load_font env sans_families SUBTITLE_SIZE).1
    let L := layoutText env font_headline font_subtitle headline subtitle
    let canvas := canvas.drawText (L.hl_x, L.hl_y) headline COLOR_HEADLINE
      font_headline
    let canvas := canvas.drawText (L.st_x, L.st_y) subtitle COLOR_SUBTITLE
      font_subtitle
    let frame_top := L.st_bottom + DEVICE_TOP_PAD
    let frame_left := DEVICE_SIDE_PAD
    let frame_right := CANVAS_W - DEVICE_SIDE_PAD
    let frame_bottom := CANVAS_H - DEVICE_BOTTOM_PAD
    let frame_inner_w := (frame_right - frame_left) - 2 * FRAME_BORDER_WIDTH
    let frame_inner_h := (frame_bottom - frame_top) - 2 * FRAME_BORDER_WIDTH
    match env.openImage input_path with
    | none => (fs, Except.error "cannot identify image file")
    | some raw =>
      let screenshot := raw.convert Mode.RGBA
      let sc_w := screenshot.width
      let sc_h := screenshot.height
      if sc_w = 0 ∨ sc_h = 0 then (fs, Except.error zeroDivMsg)
      else
        let nd := scaledDims frame_inner_w frame_inner_h sc_w sc_h
        let new_w := nd.1
        let new_h := nd.2
        let screenshot := screenshot.resize new_w new_h
        let paste_x := frame_left + FRAME_BORDER_WIDTH +
          Int.fdiv (frame_inner_w - new_w) 2
        let paste_y := frame_top + FRAME_BORDER_WIDTH +
          Int.fdiv (frame_inner_h - new_h) 2
        let inner_radius := max (FRAME_CORNER_RADIUS - FRAME_BORDER_WIDTH) 0
        let mask := Img.mk Mode.L new_w new_h
        let canvas := canvas.paste screenshot (paste_x, paste_y) mask
        let canvas := canvas.roundedRect
          (frame_left, frame_top, frame_right, frame_bottom)
          FRAME_CORNER_RADIUS FRAME_BORDER_COLOR FRAME_BORDER_WIDTH
        let fs1 := fs.mkdirParents output_path
        let fs2 := fs1.save output_path "PNG" canvas
        (fs2, Except.ok canvas)

/-! ## Claims about the pipeline -/

theorem aspect_fit_upper {iw sw : ℤ} (s : ℚ)
    (hiw : 0 < iw) (hsw : 0 < sw) (biw : iw ≤ 2 ^ 40)
    (hs_pos : 0 < s) (hs_le : s ≤ fl ((iw : ℚ) / (sw : ℚ))) :
    truncQ (fl ((sw : ℚ) * s)) ≤ iw := by
  have hswq : (0:ℚ) < (sw : ℚ) := by exact_mod_cast hsw
  have hiwq : (0:ℚ) < (iw : ℚ) := by exact_mod_cast hiw
  have biwq : (iw : ℚ) ≤ 2 ^ 40 := by exact_mod_cast biw
  have hr : (0:ℚ) < (iw : ℚ) / (sw : ℚ) := div_pos hiwq hswq
  have herr := fl_err ((iw : ℚ) / (sw : ℚ))
  rw [abs_of_pos hr, abs_le] at herr
  have hq : (0:ℚ) < (sw : ℚ) * s := mul_pos hswq hs_pos
  have herr2 := fl_err ((sw : ℚ) * s)
  rw [abs_of_pos hq, abs_le] at herr2
  have hWr : (sw : ℚ) * ((iw : ℚ) / (sw : ℚ)) = (iw : ℚ) := by field_simp
  have h1 : (sw : ℚ) * s ≤ (iw : ℚ) * (1 + 1/2^53) := by
    calc (sw : ℚ) * s ≤ (sw : ℚ) * fl ((iw : ℚ) / (sw : ℚ)) :=
          mul_le_mul_of_nonneg_left hs_le hswq.le
      _ ≤ (sw : ℚ) * ((iw : ℚ)/(sw : ℚ) + ((iw : ℚ)/(sw : ℚ))/2^53) :=
          mul_le_mul_of_nonneg_left (by linarith [herr.2]) hswq.le
      _ = ((sw : ℚ) * ((iw : ℚ)/(sw : ℚ))) * (1 + 1/2^53) := by ring
      _ = (iw : ℚ) * (1 + 1/2^53) := by rw [hWr]
  have h2 : fl ((sw : ℚ) * s) ≤ (iw : ℚ) * (1 + 1/2^53)^2 := by
    calc fl ((sw : ℚ) * s) ≤ (sw : ℚ)*s + ((sw : ℚ)*s)/2^53 := by
          linarith [herr2.2]
      _ = ((sw : ℚ)*s) * (1 + 1/2^53) := by ring
      _ ≤ ((iw : ℚ) * (1 + 1/2^53)) * (1 + 1/2^53) :=
          mul_le_mul_of_nonneg_right h1 (by norm_num)
      _ = (iw : ℚ) * (1 + 1/2^53)^2 := by ring
  have hexp : (iw : ℚ) * (1 + 1/2^53)^2
      = (iw : ℚ) + (iw : ℚ) * (2/2^53 + 1/2^106) := by ring
  have hc : (iw : ℚ) * (2/2^53 + 1/2^106) ≤ (2^40 : ℚ) * (2/2^53 + 1/2^106) :=
    mul_le_mul_of_nonneg_right biwq (by norm_num)
  have hlit : (2^40 : ℚ) * (2/2^53 + 1/2^106) < 1 := by norm_num
  rw [truncQ_eq_floor (fl_nonneg hq.le)]
  have h4 : fl ((sw : ℚ) * s) < ((iw + 1 : ℤ) : ℚ) := by
    push_cast
    linarith
  have := Int.floor_lt.mpr h4
  omega

theorem aspect_fit_lower {iw sw : ℤ} (s : ℚ)
    (hiw : 0 < iw) (hsw : 0 < sw) (biw : iw ≤ 2 ^ 40)
    (hs_eq : s = fl ((iw : ℚ) / (sw : ℚ))) :
    iw - 1 ≤ truncQ (fl ((sw : ℚ) * s)) := by
  have hswq : (0:ℚ) < (sw : ℚ) := by exact_mod_cast hsw
  have hiwq : (0:ℚ) < (iw : ℚ) := by exact_mod_cast hiw
  have biwq : (iw : ℚ) ≤ 2 ^ 40 := by exact_mod_cast biw
  have hr : (0:ℚ) < (iw : ℚ) / (sw : ℚ) := div_pos hiwq hswq
  have herr := fl_err ((iw : ℚ) / (sw : ℚ))
  rw [abs_of_pos hr, abs_le] at herr
  have hs_pos : 0 < s := hs_eq ▸ fl_pos hr
  have hq : (0:ℚ) < (sw : ℚ) * s := mul_pos hswq hs_pos
  have herr2 := fl_err ((sw : ℚ) * s)
  rw [abs_of_pos hq, abs_le] at herr2
  have hWr : (sw : ℚ) * ((iw : ℚ) / (sw : ℚ)) = (iw : ℚ) := by field_simp
  have h1 : (iw : ℚ) * (1 - 1/2^53) ≤ (sw : ℚ) * s := by
    calc (iw : ℚ) * (1 - 1/2^53)
        = ((sw : ℚ) * ((iw : ℚ)/(sw : ℚ))) * (1 - 1/2^53) := by rw [hWr]
      _ = (sw : ℚ) * ((iw : ℚ)/(sw : ℚ) - ((iw : ℚ)/(sw : ℚ))/2^53) := by ring
      _ ≤ (sw : ℚ) * s := by
          rw [hs_eq]
          exact mul_le_mul_of_nonneg_left (by linarith [herr.1]) hswq.le
  have h2 : (iw : ℚ) * (1 - 1/2^53)^2 ≤ fl ((sw : ℚ) * s) := by
    calc (iw : ℚ) * (1 - 1/2^53)^2
        = ((iw : ℚ) * (1 - 1/2^53)) * (1 - 1/2^53) := by ring
      _ ≤ ((sw : ℚ)*s) * (1 - 1/2^53) :=
          mul_le_mul_of_nonneg_right h1 (by norm_num)
      _ = (sw : ℚ)*s - ((sw : ℚ)*s)/2^53 := by ring
      _ ≤ fl ((sw : ℚ) * s) := by linarith [herr2.1]
  have hexp : (iw : ℚ) * (1 - 1/2^53)^2
      = (iw : ℚ) - (iw : ℚ) * (2/2^53 - 1/2^106) := by ring
  have hc : (iw : ℚ) * (2/2^53 - 1/2^106) ≤ (2^40 : ℚ) * (2/2^53 - 1/2^106) :=
    mul_le_mul_of_nonneg_right biwq (by norm_num)
  have hlit : (2^40 : ℚ) * (2/2^53 - 1/2^106) < 1 := by norm_num
  rw [truncQ_eq_floor (fl_nonneg hq.le)]
  apply Int.le_floor.mpr
  push_cast
  linarith

/-- Claim C3 (amended): with positive dimensions bounded by `2^40`, the
double-precision aspect-fit dimensions never exceed the inner frame, at
least one of them comes within one pixel of its inner dimension
(`new ≥ inner - 1`; exact equality can fail by one ulp of rounding), and
both derive from the single uniform positive scale factor. -/
theorem scaledDims_aspect_fit (inner_w inner_h sc_w sc_h : ℤ)
    (hiw : 0 < inner_w) (hih : 0 < inner_h)
    (hsw : 0 < sc_w) (hsh : 0 < sc_h)
    (biw : inner_w ≤ 2 ^ 40) (bih : inner_h ≤ 2 ^ 40)
    (bsw : sc_w ≤ 2 ^ 40) (bsh : sc_h ≤ 2 ^ 40) :
    (scaledDims inner_w inner_h sc_w sc_h).1 ≤ inner_w ∧
    (scaledDims inner_w inner_h sc_w sc_h).2 ≤ inner_h ∧
    (inner_w - 1 ≤ (scaledDims inner_w inner_h sc_w sc_h).1 ∨
     inner_h - 1 ≤ (scaledDims inner_w inner_h sc_w sc_h).2) ∧
    (∃ s : ℚ, 0 < s ∧
      (scaledDims inner_w inner_h sc_w sc_h).1
        = truncQ (fl (fl (sc_w : ℚ) * s)) ∧
      (scaledDims inner_w inner_h sc_w sc_h).2
        = truncQ (fl (fl (sc_h : ℚ) * s))) := by
  have hswq : (0:ℚ) < (sc_w : ℚ) := by exact_mod_cast hsw
  have hshq : (0:ℚ) < (sc_h : ℚ) := by exact_mod_cast hsh
  have hiwq : (0:ℚ) < (inner_w : ℚ) := by exact_mod_cast hiw
  have hihq : (0:ℚ) < (inner_h : ℚ) := by exact_mod_cast hih
  have hpow40 : (2:ℤ) ^ 40 = 1099511627776 := by norm_num
  have hpow52 : (2:ℤ) ^ 52 = 4503599627370496 := by norm_num
  have hfsw : fl ((sc_w : ℚ)) = (sc_w : ℚ) :=
    fl_int_exact sc_w (by rw [abs_le]; omega)
  have hfsh : fl ((sc_h : ℚ)) = (sc_h : ℚ) :=
    fl_int_exact sc_h (by rw [abs_le]; omega)
  have hr1 : (0:ℚ) < (inner_w : ℚ) / (sc_w : ℚ) := div_pos hiwq hswq
  have hr2 : (0:ℚ) < (inner_h : ℚ) / (sc_h : ℚ) := div_pos hihq hshq
  have hspos : 0 < fitScale inner_w inner_h sc_w sc_h := by
    rw [fitScale]
    exact lt_min (fl_pos hr1) (fl_pos hr2)
  have e1 : (scaledDims inner_w inner_h sc_w sc_h).1
      = truncQ (fl ((sc_w : ℚ) * fitScale inner_w inner_h sc_w sc_h)) := by
    show truncQ (fl (fl ((sc_w : ℚ)) * fitScale inner_w inner_h sc_w sc_h)) = _
    rw [hfsw]
  have e2 : (scaledDims inner_w inner_h sc_w sc_h).2
      = truncQ (fl ((sc_h : ℚ) * fitScale inner_w inner_h sc_w sc_h)) := by
    show truncQ (fl (fl ((sc_h : ℚ)) * fitScale inner_w inner_h sc_w sc_h)) = _
    rw [hfsh]
  refine ⟨?_, ?_, ?_,
    ⟨fitScale inner_w inner_h sc_w sc_h, hspos, rfl, rfl⟩⟩
  · rw [e1]
    exact aspect_fit_upper _ hiw hsw biw hspos
      (by rw [fitScale]; exact min_le_left _ _)
  · rw [e2]
    exact aspect_fit_upper _ hih hsh bih hspos
      (by rw [fitScale]; exact min_le_right _ _)
  · rcases min_cases (fl ((inner_w : ℚ) / (sc_w : ℚ)))
      (fl ((inner_h : ℚ) / (sc_h : ℚ))) with ⟨hmin, _⟩ | ⟨hmin, _⟩
    · left
      rw [e1]
      exact aspect_fit_lower _ hiw hsw biw (by rw [fitScale, hmin])
    · right
      rw [e2]
      exact aspect_fit_lower _ hih hsh bih (by rw [fitScale, hmin])

/-- Concrete instance of C3 at the inner frame `1154 x 2322` with an
`800 x 1600` screenshot (the end-to-end scenario of the spec). -/
theorem scaledDims_aspect_fit_witness :
    ((0 : ℤ) < 1154 ∧ (0 : ℤ) < 2322 ∧ (0 : ℤ) < 800 ∧ (0 : ℤ) < 1600 ∧
     (1154 : ℤ) ≤ 2 ^ 40 ∧ (2322 : ℤ) ≤ 2 ^ 40 ∧
     (800 : ℤ) ≤ 2 ^ 40 ∧ (1600 : ℤ) ≤ 2 ^ 40) ∧
    ((scaledDims 1154 2322 800 1600).1 ≤ 1154 ∧
     (scaledDims 1154 2322 800 1600).2 ≤ 2322 ∧
     ((1154 : ℤ) - 1 ≤ (scaledDims 1154 2322 800 1600).1 ∨
      (2322 : ℤ) - 1 ≤ (scaledDims 1154 2322 800 1600).2) ∧
     (∃ s : ℚ, 0 < s ∧
       (scaledDims 1154 2322 800 1600).1
         = truncQ (fl (fl (((800 : ℤ)) : ℚ) * s)) ∧
       (scaledDims 1154 2322 800 1600).2
         = truncQ (fl (fl (((1600 : ℤ)) : ℚ) * s)))) :=
  ⟨⟨by decide, by decide, by decide, by decide,
    by decide, by decide, by decide, by decide⟩,
   scaledDims_aspect_fit 1154 2322 800 1600
     (by decide) (by decide) (by decide) (by decide)
     (by decide) (by decide) (by decide) (by decide)⟩

/-- Claim C3 counterexample: exact equality of one scaled dimension with
its inner dimension fails in double precision at positive inputs.  At
`inner = (1, 1)`, `sc = (1, 49)` the scale is the double just below
`1/49`, so `new_h = int(49 * scale) = int(0.9999999999999999) = 0` and
`new_w = int(1 * scale) = 0`: neither scaled dimension equals its inner
dimension. -/
theorem scaledDims_exact_fit_fails :
    (0:ℤ) < 1 ∧ (0:ℤ) < 49 ∧
    scaledDims 1 1 1 49 = (0, 0) ∧
    ¬((scaledDims 1 1 1 49).1 = 1 ∨ (scaledDims 1 1 1 49).2 = 1) := by
  have hone : fl (((1:ℤ)) : ℚ) = ((1:ℤ) : ℚ) := fl_int_exact 1 (by norm_num)
  have h49 : fl (((49:ℤ)) : ℚ) = ((49:ℤ) : ℚ) := fl_int_exact 49 (by norm_num)
  have hd1 : fl (((1:ℤ) : ℚ) / ((1:ℤ) : ℚ)) = 1 := by
    rw [show ((1:ℤ) : ℚ) / ((1:ℤ) : ℚ) = ((1:ℤ) : ℚ) by norm_num, hone]
    norm_num
  have hd2 : fl (((1:ℤ) : ℚ) / ((49:ℤ) : ℚ)) = 5882252574524729 / 2 ^ 58 := by
    rw [show ((1:ℤ) : ℚ) / ((49:ℤ) : ℚ) = 1/49 by norm_num]
    exact fl_eq_of_bounds _ (by norm_num) _ 58 (by norm_num) (by norm_num)
      (by norm_num) (by norm_num)
  have hfit : fitScale 1 1 1 49 = 5882252574524729 / 2 ^ 58 := by
    rw [fitScale, hd1, hd2]
    exact min_eq_right (by norm_num)
  have hP1 : fl (fl (((1:ℤ)) : ℚ) * fitScale 1 1 1 49)
      = 5882252574524729 / 2 ^ 58 := by
    rw [hone, hfit,
      show ((1:ℤ) : ℚ) * (5882252574524729 / 2 ^ 58)
        = (5882252574524729 : ℚ) / 2 ^ 58 by norm_num]
    exact fl_eq_of_bounds _ (by norm_num) _ 58 (by norm_num) (by norm_num)
      (by norm_num) (by norm_num)
  have hP2 : fl (fl (((49:ℤ)) : ℚ) * fitScale 1 1 1 49)
      = 9007199254740991 / 2 ^ 53 := by
    rw [h49, hfit,
      show ((49:ℤ) : ℚ) * (5882252574524729 / 2 ^ 58)
        = (288230376151711721 : ℚ) / 2 ^ 58 by norm_num]
    exact fl_eq_of_bounds _ (by norm_num) _ 53 (by norm_num) (by norm_num)
      (by norm_num) (by norm_num)
  have t1 : truncQ ((5882252574524729 : ℚ) / 2 ^ 58) = 0 := by
    rw [truncQ_eq_floor (by norm_num)]
    exact Int.floor_eq_iff.mpr ⟨by norm_num, by norm_num⟩
  have t2 : truncQ ((9007199254740991 : ℚ) / 2 ^ 53) = 0 := by
    rw [truncQ_eq_floor (by norm_num)]
    exact Int.floor_eq_iff.mpr ⟨by norm_num, by norm_num⟩
  have hkey : scaledDims 1 1 1 49 = (0, 0) := by
    show (truncQ (fl (fl (((1:ℤ)) : ℚ) * fitScale 1 1 1 49)),
          truncQ (fl (fl (((49:ℤ)) : ℚ) * fitScale 1 1 1 49))) = (0, 0)
    rw [hP1, hP2, t1, t2]
  refine ⟨by norm_num, by norm_num, hkey, ?_⟩
  rw [hkey]
  decide

/-- Claim C5: in the layout computed by `render`, the subtitle's vertical
draw position equals the headline's draw position plus the headline's
measured bounding-box height plus the fixed gap, hence is strictly greater
than position plus height; both strings are centered with floor division
`(CANVAS_W - text_width) // 2`. -/
theorem subtitle_below_headline (env : Env)
    (font_headline font_subtitle : Font) (headline subtitle : String) :
    (layoutText env font_headline font_subtitle headline subtitle).st_y =
      (layoutText env font_headline font_subtitle headline subtitle).hl_y +
      (layoutText env font_headline font_subtitle headline subtitle).hl_h +
      SUBTITLE_GAP ∧
    (layoutText env font_headline font_subtitle headline subtitle).hl_y +
      (layoutText env font_headline font_subtitle headline subtitle).hl_h <
      (layoutText env font_headline font_subtitle headline subtitle).st_y ∧
    (layoutText env font_headline font_subtitle headline subtitle).hl_x =
      Int.fdiv (CANVAS_W -
        (layoutText env font_headline font_subtitle headline subtitle).hl_w) 2 ∧
    (layoutText env font_headline font_subtitle headline subtitle).st_x =
      Int.fdiv (CANVAS_W -
        (layoutText env font_headline font_subtitle headline subtitle).st_w) 2 := by
  refine ⟨rfl, ?_, rfl, rfl⟩
  simp only [layoutText, SUBTITLE_GAP]
  omega

theorem gradientCanvas_canvas :
    gradientCanvas CANVAS_W CANVAS_H =
      Except.ok ⟨Mode.RGB, CANVAS_W, CANVAS_H⟩ := rfl

/-- Claim C6: when `Image.open` fails (missing / undecodable input), the
error propagates out of `render` before the `mkdir` and `save` steps, so
the filesystem is returned unchanged and the result is the error. -/
theorem render_missing_input (env : Env) (fs : FS)
    (input_path output_path headline subtitle : String)
    (h : env.openImage input_path = none) :
    (render env fs input_path output_path headline subtitle).1 = fs ∧
    (render env fs input_path output_path headline subtitle).2 =
      Except.error "cannot identify image file" := by
  unfold render
  rw [gradientCanvas_canvas, h]
  exact ⟨rfl, rfl⟩

/-- An environment with no fonts and no readable input image. -/
def envNone : Env :=
  ⟨fun _ => false, fun _ => false, "/Users/u",
   fun _ _ => ⟨0, 0, 0, 0⟩, fun _ => none⟩

/-- An environment with no fonts, a `600 x 50` text bounding box for every
string, and an `800 x 1600` RGB image at every input path. -/
def envOk : Env :=
  ⟨fun _ => false, fun _ => false, "/Users/u",
   fun _ _ => ⟨0, 0, 600, 50⟩, fun _ => some ⟨Mode.RGB, 800, 1600⟩⟩

/-- The empty filesystem. -/
def fs0 : FS := ⟨[], []⟩

instance {ε α : Type} [DecidableEq ε] [DecidableEq α] :
    DecidableEq (Except ε α) := fun a b =>
  match a, b with
  | Except.error x, Except.error y =>
    if h : x = y then isTrue (by rw [h])
    else isFalse (fun hc => h (Except.error.inj hc))
  | Except.error _, Except.ok _ => isFalse (fun hc => Except.noConfusion hc)
  | Except.ok _, Except.error _ => isFalse (fun hc => Except.noConfusion hc)
  | Except.ok x, Except.ok y =>
    if h : x = y then isTrue (by rw [h])
    else isFalse (fun hc => h (Except.ok.inj hc))

/-- Concrete instance of C6: with a missing input image the filesystem is
untouched and an error is returned. -/
theorem render_missing_input_witness :
    envNone.openImage "shots/01.png" = none ∧
    ((render envNone fs0 "shots/01.png" "marketing/01.png" "H" "S").1 = fs0 ∧
     (render envNone fs0 "shots/01.png" "marketing/01.png" "H" "S").2 =
       Except.error "cannot identify image file") :=
  ⟨rfl, render_missing_input envNone fs0 "shots/01.png" "marketing/01.png"
    "H" "S" rfl⟩

/-- Inversion of `render`'s success case: the composed canvas is exactly
the RGB canvas of fixed dimensions, and the filesystem gained the output's
parent directory and one saved PNG file of that canvas. -/
theorem render_ok_inv (env : Env) (fs : FS)
    (input_path output_path headline subtitle : String) (fs' : FS)
    (img : Img)
    (h : render env fs input_path output_path headline subtitle =
      (fs', Except.ok img)) :
    img = ⟨Mode.RGB, CANVAS_W, CANVAS_H⟩ ∧
    fs' = ⟨parentDir output_path :: fs.dirs,
           ⟨output_path, "PNG", Mode.RGB, CANVAS_W, CANVAS_H⟩ :: fs.saved⟩ := by
  cases hopen : env.openImage input_path with
  | none =>
    rw [render.eq_def, gradientCanvas_canvas, hopen] at h
    simp at h
  | some raw =>
    rw [render.eq_def, gradientCanvas_canvas, hopen] at h
    simp only [Img.drawText, Img.convert, Img.resize, Img.paste,
      Img.roundedRect, FS.mkdirParents, FS.save] at h
    split at h
    · simp at h
    · rw [Prod.mk.injEq] at h
      obtain ⟨hfs, himg⟩ := h
      rw [Except.ok.injEq] at himg
      exact ⟨himg.symm, hfs.symm⟩

/-- Claim C7: whenever `render` completes, the saved output image is
exactly `1320 x 2868`: the canvas is created at that size and no drawing,
paste, or border step changes it. -/
theorem render_output_dims (env : Env) (fs : FS) (ip op hl st : String)
    (fs' : FS) (img : Img)
    (h : render env fs ip op hl st = (fs', Except.ok img)) :
    img.width = 1320 ∧ img.height = 2868 ∧
    fs'.saved.head? = some ⟨op, "PNG", Mode.RGB, 1320, 2868⟩ := by
  obtain ⟨himg, hfs⟩ := render_ok_inv env fs ip op hl st fs' img h
  subst himg; subst hfs
  exact ⟨rfl, rfl, rfl⟩

/-- Concrete instance of C7: a completed render of an `800 x 1600` input
saves a `1320 x 2868` image. -/
theorem render_output_dims_witness :
    render envOk fs0 "shots/01.png" "marketing/01.png" "H" "S" =
      (⟨["marketing"], [⟨"marketing/01.png", "PNG", Mode.RGB, 1320, 2868⟩]⟩,
       Except.ok ⟨Mode.RGB, 1320, 2868⟩) ∧
    ((⟨Mode.RGB, 1320, 2868⟩ : Img).width = 1320 ∧
     (⟨Mode.RGB, 1320, 2868⟩ : Img).height = 2868 ∧
     (FS.mk ["marketing"]
        [⟨"marketing/01.png", "PNG", Mode.RGB, 1320, 2868⟩]).saved.head? =
       some ⟨"marketing/01.png", "PNG", Mode.RGB, 1320, 2868⟩) :=
  ⟨by decide,
   render_output_dims envOk fs0 "shots/01.png" "marketing/01.png" "H" "S"
     (FS.mk ["marketing"] [⟨"marketing/01.png", "PNG", Mode.RGB, 1320, 2868⟩])
     (Img.mk Mode.RGB 1320 2868) (by decide)⟩

/-- Claim C8: `render` is deterministic — two invocations with equal
environments (same files, fonts, decoder behavior), equal starting
filesystem, and equal arguments produce equal results. -/
theorem render_deterministic (env1 env2 : Env) (fsA fsB : FS)
    (ip1 ip2 op1 op2 hl1 hl2 st1 st2 : String)
    (henv : env1 = env2) (hfs : fsA = fsB) (hip : ip1 = ip2)
    (hop : op1 = op2) (hhl : hl1 = hl2) (hst : st1 = st2) :
    render env1 fsA ip1 op1 hl1 st1 = render env2 fsB ip2 op2 hl2 st2 := by
  subst henv; subst hfs; subst hip; subst hop; subst hhl; subst hst
  rfl

/-- Concrete instance of C8: two identical invocations agree. -/
theorem render_deterministic_witness :
    (envOk = envOk ∧ fs0 = fs0 ∧
     ("shots/01.png" : String) = "shots/01.png" ∧
     ("marketing/01.png" : String) = "marketing/01.png" ∧
     ("H" : String) = "H" ∧ ("S" : String) = "S") ∧
    render envOk fs0 "shots/01.png" "marketing/01.png" "H" "S" =
      render envOk fs0 "shots/01.png" "marketing/01.png" "H" "S" :=
  ⟨⟨rfl, rfl, rfl, rfl, rfl, rfl⟩,
   render_deterministic envOk envOk fs0 fs0 "shots/01.png" "shots/01.png"
     "marketing/01.png" "marketing/01.png" "H" "H" "S" "S"
     rfl rfl rfl rfl rfl rfl⟩

/-- Claim C9: the serialization format is hard-coded to `"PNG"`: whatever
the output path — including one with a `.jpg` extension — the written file
is PNG-encoded. -/
theorem render_saves_png (env : Env) (fs : FS) (ip op hl st : String)
    (fs' : FS) (img : Img)
    (h : render env fs ip op hl st = (fs', Except.ok img)) :
    ∃ rest, fs'.saved =
      ⟨op, "PNG", Mode.RGB, CANVAS_W, CANVAS_H⟩ :: rest := by
  obtain ⟨_, hfs⟩ := render_ok_inv env fs ip op hl st fs' img h
  subst hfs
  exact ⟨fs.saved, rfl⟩

/-- Concrete instance of C9: an output path ending in `.jpg` still gets a
PNG-encoded file. -/
theorem render_saves_png_witness :
    render envOk fs0 "shots/01.png" "marketing/01.jpg" "H" "S" =
      (⟨["marketing"], [⟨"marketing/01.jpg", "PNG", Mode.RGB, 1320, 2868⟩]⟩,
       Except.ok ⟨Mode.RGB, 1320, 2868⟩) ∧
    (∃ rest,
      (FS.mk ["marketing"]
        [⟨"marketing/01.jpg", "PNG", Mode.RGB, 1320, 2868⟩]).saved =
        ⟨"marketing/01.jpg", "PNG", Mode.RGB, CANVAS_W, CANVAS_H⟩ :: rest) :=
  ⟨by decide,
   render_saves_png envOk fs0 "shots/01.png" "marketing/01.jpg" "H" "S"
     (FS.mk ["marketing"] [⟨"marketing/01.jpg", "PNG", Mode.RGB, 1320, 2868⟩])
     (Img.mk Mode.RGB 1320 2868) (by decide)⟩

/-- Claim C10: the completed render's output image is 3-channel RGB (no
alpha channel, every pixel fully opaque), although the screenshot is
converted to RGBA and pasted through an "L" alpha mask: conversion gives
the screenshot — not the canvas — mode RGBA, and pasting never changes the
canvas's own mode. -/
theorem render_output_rgb (env : Env) (fs : FS) (ip op hl st : String)
    (fs' : FS) (img : Img)
    (h : render env fs ip op hl st = (fs', Except.ok img)) :
    img.mode = Mode.RGB ∧
    (∀ s, fs'.saved.head? = some s → s.mode = Mode.RGB) ∧
    (∀ raw : Img, (raw.convert Mode.RGBA).mode = Mode.RGBA) ∧
    (∀ (c src : Img) (pos : ℤ × ℤ) (mask : Img),
      (c.paste src pos mask).mode = c.mode) := by
  obtain ⟨himg, hfs⟩ := render_ok_inv env fs ip op hl st fs' img h
  subst himg; subst hfs
  refine ⟨rfl, ?_, fun raw => rfl, fun c src pos mask => rfl⟩
  intro s hs
  simp only [List.head?_cons, Option.some.injEq] at hs
  subst hs
  rfl

/-- Concrete instance of C10: the saved output of a completed render has
mode RGB. -/
theorem render_output_rgb_witness :
    render envOk fs0 "shots/02.png" "marketing/02.png" "H" "S" =
      (⟨["marketing"], [⟨"marketing/02.png", "PNG", Mode.RGB, 1320, 2868⟩]⟩,
       Except.ok ⟨Mode.RGB, 1320, 2868⟩) ∧
    ((Img.mk Mode.RGB 1320 2868).mode = Mode.RGB ∧
     (∀ s, (FS.mk ["marketing"]
        [⟨"marketing/02.png", "PNG", Mode.RGB, 1320, 2868⟩]).saved.head? =
          some s → s.mode = Mode.RGB) ∧
     (∀ raw : Img, (raw.convert Mode.RGBA).mode = Mode.RGBA) ∧
     (∀ (c src : Img) (pos : ℤ × ℤ) (mask : Img),
       (c.paste src pos mask).mode = c.mode)) :=
  ⟨by decide,
   render_output_rgb envOk fs0 "shots/02.png" "marketing/02.png" "H" "S"
     (FS.mk ["marketing"] [⟨"marketing/02.png", "PNG", Mode.RGB, 1320, 2868⟩])
     (Img.mk Mode.RGB 1320 2868) (by decide)⟩

end Drift
